import Mathlib

/-!
Shallow embedding of the concurrent email-verification engine
(`core/email_checker.py`, `core/get_csrf.py`, `core/worker.py`) and proofs of
the specification's claims about it.

HTTP transport is abstracted: a request either produces a response (status code
plus the data the code inspects) or raises one of the exception classes the code
catches.  All branching logic of the Python functions is reproduced faithfully.
-/

namespace WebScrape

/-! ## Substring containment (Python's `in` operator on strings) -/

/-- `prefAt pat l` — `pat` is a prefix of `l` (character lists). -/
def prefAt : List Char → List Char → Bool
  | [], _ => true
  | _ :: _, [] => false
  | a :: as, b :: bs => a == b && prefAt as bs

/-- `containsAux pat l` — `pat` occurs contiguously inside `l`. -/
def containsAux (pat : List Char) : List Char → Bool
  | [] => prefAt pat []
  | b :: bs => prefAt pat (b :: bs) || containsAux pat bs

/-- Python's `pat in s` for strings. -/
def strContains (s pat : String) : Bool :=
  containsAux pat.toList s.toList

/-! ## Transport outcomes

A POST in `check_email` either yields a response object (status code and body
text) or raises one of the exceptions handled there (`Timeout`, `ProxyError`,
`SSLError`, `RequestException`, anything else). -/

inductive HttpResult where
  | resp (status : Nat) (body : String)
  | timeout
  | proxyError
  | sslError
  | requestException
  | otherException
deriving DecidableEq, Repr

/-! ## `check_email` (core/email_checker.py)

Returns `(email, "Registered" | "Not registered" | "Unclear")` on a usable
response, `none` on the blocked statuses or any caught exception.  The status
tests and body heuristics appear in exactly the source's order. -/

def check_email (email : String) (r : HttpResult) : Option (String × String) :=
  match r with
  | .resp status body =>
      if status = 429 then none
      else if status = 403 then none
      else if status = 401 then none
      else if status = 301 ∨ status = 302 then none
      else if strContains body "already associated with an account" then
        some (email, "Registered")
      else if strContains body "is available" || strContains body "looks good" then
        some (email, "Not registered")
      else
        some (email, "Unclear")
  | _ => none

/-! ## `get_csrf_token` (core/get_csrf.py)

The GET either yields a response or raises a caught exception.  On a response
the code checks 429/403/401/301/302 (returning `None`), then calls
`raise_for_status()` — which raises `HTTPError` (a `RequestException`, caught,
returning `None`) for every 4xx/5xx status — and only then parses the page.
The parse step is abstracted by `tokenField`: the `value` attribute of the
hidden CSRF input if that input is present.  A missing or empty token raises
`RuntimeError` (re-raised by the surrounding handler as `RuntimeError` again),
modelled as `parseError`. -/

inductive PageResult where
  | resp (status : Nat) (tokenField : Option String)
  | timeout
  | proxyError
  | sslError
  | requestException
  | otherException
deriving DecidableEq, Repr

inductive CsrfOutcome where
  | token (t : String)
  | noToken
  | parseError
deriving DecidableEq, Repr

def get_csrf_token (p : PageResult) : CsrfOutcome :=
  match p with
  | .resp status tokenField =>
      if status = 429 then .noToken
      else if status = 403 then .noToken
      else if status = 401 then .noToken
      else if status = 301 ∨ status = 302 then .noToken
      else if 400 ≤ status ∧ status < 600 then .noToken
      else
        match tokenField with
        | some t => if t = "" then .parseError else .token t
        | none => .parseError
  | _ => .noToken

/-! ## Retry policies (urllib3 `Retry` objects)

`retries` is defined in core/get_csrf.py, `RETRY_STRATEGY` in
core/email_checker.py.  `retryAppliesTo` models the status-based retry
decision (`status_forcelist` membership); `backoffTime` models the
exponential backoff schedule in seconds (`backoff_factor * 2^n` before the
n-th re-attempt). -/

structure RetryPolicy where
  total : Nat
  backoff_factor : Nat
  status_forcelist : List Nat
  raise_on_status : Bool
  raise_on_redirect : Bool
deriving DecidableEq, Repr

def retries : RetryPolicy :=
  { total := 3
    backoff_factor := 1
    status_forcelist := [429, 500, 502, 503, 504]
    raise_on_status := false
    raise_on_redirect := false }

def RETRY_STRATEGY : RetryPolicy :=
  { total := 3
    backoff_factor := 1
    status_forcelist := [429, 500, 502, 503, 504]
    raise_on_status := false
    raise_on_redirect := false }

def retryAppliesTo (p : RetryPolicy) (status : Nat) : Bool :=
  p.status_forcelist.contains status

def backoffTime (p : RetryPolicy) (n : Nat) : Nat :=
  p.backoff_factor * 2 ^ n

/-! ## The worker loop (core/worker.py)

The worker is interpreted against an environment of oracles describing what
the outside world does at each interaction point:

* `acq i` — the outcome of the i-th identity-acquisition attempt over the
  whole run: either `generate_session_and_proxy` raised (`sessionRaise`), or
  it succeeded and `get_csrf_token` was run on the resulting page
  (`page p`, interpreted through `get_csrf_token` itself).
* `gets j` — the outcome of the j-th `q.get(timeout=5)`: `some email` or
  `none` for `queue.Empty`.
* `checks k` — the behaviour of the k-th `check_email` call: either it
  returns (interpreted through `check_email` on the given transport outcome)
  or, defensively, the call raised (`worker.py`'s `except Exception` branch).

The interpreter emits a trace of observable events — acquisition attempts,
dequeues, result-store writes, re-enqueues, `task_done` calls and exits —
each tagged with the acquisition index `sid` of the identity in use, which
is a faithful stand-in for the `session_id` the source logs with. -/

inductive AcqAttempt where
  | sessionRaise
  | page (p : PageResult)
deriving DecidableEq, Repr

/-- One acquisition attempt: `some token` iff the session was built and
`get_csrf_token` returned a (truthy) token; `none` when the session raised,
the fetch returned `None`, or the parse raised `RuntimeError` (all three are
absorbed by the worker's `try`/`except` around the attempt). -/
def attemptOutcome : AcqAttempt → Option String
  | .sessionRaise => none
  | .page p =>
      match get_csrf_token p with
      | .token t => some t
      | .noToken => none
      | .parseError => none

inductive CheckBehavior where
  | returns (r : HttpResult)
  | raises
deriving DecidableEq, Repr

/-- What the worker's per-candidate `try` block yields: `some status` when
`check_email` returned `(email, status)` (the worker then writes
`results[email] = status`, keeping the dequeued email as the key), `none`
when `check_email` returned `None` or the call raised — both of which
re-enqueue and rotate. -/
def checkBeh (e : String) : CheckBehavior → Option String
  | .raises => none
  | .returns r =>
      match check_email e r with
      | none => none
      | some x => some x.2

structure Env where
  acq : Nat → AcqAttempt
  gets : Nat → Option String
  checks : Nat → CheckBehavior

inductive Ev where
  | acqFail
  | acqOk (sid : Nat)
  | deq (sid : Nat) (e : String)
  | write (sid : Nat) (e s : String)
  | requeue (sid : Nat) (e : String)
  | done
  | exitEmpty
  | exitExhausted
deriving DecidableEq, Repr

def max_attempts : Nat := 10

structure AcqOut where
  evs : List Ev
  ai : Nat
  tok : Option (Nat × String)
deriving Repr

/-- The `for attempt in range(1, max_attempts + 1)` loop: `ai` is the global
acquisition-attempt index, the second argument the attempts remaining. -/
def runAcquire (env : Env) : Nat → Nat → AcqOut
  | ai, 0 => ⟨[], ai, none⟩
  | ai, n + 1 =>
      match attemptOutcome (env.acq ai) with
      | some t => ⟨[.acqOk ai], ai + 1, some (ai, t)⟩
      | none =>
          let r := runAcquire env (ai + 1) n
          ⟨.acqFail :: r.evs, r.ai, r.tok⟩

structure SessOut where
  evs : List Ev
  gi : Nat
  ci : Nat
  writes : List (String × String)
  empty : Bool
deriving Repr

/-- The `while processed_in_session < emails_per_session` loop under identity
`sid`; the first `Nat` argument is the remaining budget
(`emails_per_session - processed_in_session`).  On a successful check the
worker writes `results[email] = status`, calls `task_done` and continues; on
a failed or raising check it re-enqueues, calls `task_done` (the `finally`
block) and breaks to rotate; on `queue.Empty` it returns
(`empty := true`). -/
def runSession (env : Env) (sid : Nat) : Nat → Nat → Nat → SessOut
  | 0, gi, ci => ⟨[], gi, ci, [], false⟩
  | b + 1, gi, ci =>
      match env.gets gi with
      | none => ⟨[], gi + 1, ci, [], true⟩
      | some e =>
          match checkBeh e (env.checks ci) with
          | some s =>
              let r := runSession env sid b (gi + 1) (ci + 1)
              ⟨.deq sid e :: .write sid e s :: .done :: r.evs,
               r.gi, r.ci, (e, s) :: r.writes, r.empty⟩
          | none =>
              ⟨[.deq sid e, .requeue sid e, .done], gi + 1, ci + 1, [], false⟩

inductive ExitReason where
  | queueEmpty
  | exhausted
  | fuelOut
deriving DecidableEq, Repr

structure WOut where
  evs : List Ev
  writes : List (String × String)
  reason : ExitReason
deriving Repr

/-- The worker's outer `while True` loop.  `fuel` bounds the number of
identities tried (the Python loop has no intrinsic bound); `ai`, `gi`, `ci`
are the oracle cursors. -/
def runWorker (env : Env) (emails_per_session : Nat) :
    Nat → Nat → Nat → Nat → WOut
  | 0, _, _, _ => ⟨[], [], .fuelOut⟩
  | f + 1, ai, gi, ci =>
      let a := runAcquire env ai max_attempts
      match a.tok with
      | none => ⟨a.evs ++ [.exitExhausted], [], .exhausted⟩
      | some (sid, _) =>
          let s := runSession env sid emails_per_session gi ci
          if s.empty then
            ⟨a.evs ++ s.evs ++ [.exitEmpty], s.writes, .queueEmpty⟩
          else
            let w := runWorker env emails_per_session f a.ai s.gi s.ci
            ⟨a.evs ++ s.evs ++ w.evs, s.writes ++ w.writes, w.reason⟩

/-! ## Event predicates and counters -/

def isWriteOf (sid : Nat) : Ev → Bool
  | .write s _ _ => s == sid
  | _ => false

def isDeqOf (sid : Nat) : Ev → Bool
  | .deq s _ => s == sid
  | _ => false

def isDone : Ev → Bool
  | .done => true
  | _ => false

def isDeq : Ev → Bool
  | .deq _ _ => true
  | _ => false

def isExit : Ev → Bool
  | .exitEmpty => true
  | .exitExhausted => true
  | _ => false

/-! ## Trace predicates, interleavings, and concrete environments -/

/-- The events of worker `w` inside an interleaved, worker-tagged trace. -/
def projW (w : Nat) (tt : List (Nat × Ev)) : List Ev :=
  (tt.filter (fun q => q.1 == w)).map Prod.snd

/-! ## C5: cycle discipline of the queue interactions

`CycleWF` is the grammar of well-formed worker traces seen from the queue's
side: acquisition and exit events stand alone, and every dequeue is followed
immediately by either a result write and one `task_done` (success) or by
exactly one re-enqueue of the same candidate and then one `task_done`
(failure or unexpected exception) — so `task_done` fires exactly once per
dequeue, a failed candidate is re-enqueued exactly once before its
`task_done`, and a failure cycle's net effect on the queue's outstanding
count is zero (one `get`, one `put`, one `task_done`). -/

inductive CycleWF : List Ev → Prop where
  | nil : CycleWF []
  | acqFail {r} : CycleWF r → CycleWF (.acqFail :: r)
  | acqOk {r sid} : CycleWF r → CycleWF (.acqOk sid :: r)
  | exitE {r} : CycleWF r → CycleWF (.exitEmpty :: r)
  | exitX {r} : CycleWF r → CycleWF (.exitExhausted :: r)
  | success {r sid e s} : CycleWF r → CycleWF (.deq sid e :: .write sid e s :: .done :: r)
  | failure {r sid e} : CycleWF r → CycleWF (.deq sid e :: .requeue sid e :: .done :: r)

/-! ## C6: error containment and exit discipline

`noDeqBeforeAcqOk l` — the trace `l` performs no dequeue before its first
successful acquisition.  `requeueRotates l` — after every re-enqueue, the
worker acquires a fresh identity (or exits) before dequeuing anything else.
`exitsFinal l` — exit events occur only as the very last event. -/

def noDeqBeforeAcqOk : List Ev → Bool
  | [] => true
  | .acqOk _ :: _ => true
  | .deq _ _ :: _ => false
  | _ :: r => noDeqBeforeAcqOk r

def requeueRotates : List Ev → Bool
  | [] => true
  | .requeue _ _ :: r => noDeqBeforeAcqOk r && requeueRotates r
  | _ :: r => requeueRotates r

def exitsFinal : List Ev → Bool
  | [] => true
  | [_] => true
  | e :: r => !isExit e && exitsFinal r

def envAllFail : Env :=
  { acq := fun _ => .sessionRaise
    gets := fun _ => none
    checks := fun _ => .raises }

def envW1 : Env :=
  { acq := fun _ => .page (.resp 200 (some "tok"))
    gets := fun j => if j < 2 then some "a@x.com" else none
    checks := fun _ => .returns (.resp 200 "Email is available") }

def ttW1 : List (Nat × Ev) :=
  (runWorker envW1 3 2 0 0 0).evs.map (fun e => (0, e))

def envC6 : Env :=
  { acq := fun _ => .page (.resp 200 (some "tok"))
    gets := fun _ => none
    checks := fun _ => .raises }

/-! ## Characterization lemmas -/

theorem check_email_resp_eq (email body : String) (status : Nat) :
    check_email email (.resp status body) =
      if status = 429 then none
      else if status = 403 then none
      else if status = 401 then none
      else if status = 301 ∨ status = 302 then none
      else some (email,
        if strContains body "already associated with an account" then "Registered"
        else if strContains body "is available" || strContains body "looks good" then
          "Not registered"
        else "Unclear") := by
  simp only [check_email]
  split_ifs <;> rfl

theorem get_csrf_token_resp_eq (status : Nat) (tokenField : Option String) :
    get_csrf_token (.resp status tokenField) =
      if status = 429 ∨ status = 403 ∨ status = 401 ∨ status = 301 ∨ status = 302 ∨
          (400 ≤ status ∧ status < 600) then .noToken
      else
        match tokenField with
        | some t => if t = "" then .parseError else .token t
        | none => .parseError := by
  cases tokenField <;>
    (simp only [get_csrf_token]; split_ifs <;> first | rfl | tauto)

/-! ## Claims about `check_email` and the retry policies -/

/-- C2: for every response body that `check_email` classifies (i.e. any
response whose status survives the 429/403/401/301/302 tests), a body
containing "already associated with an account" yields `Registered`;
otherwise a body containing "is available" or "looks good" yields
"Not registered"; any other body yields `Unclear`. -/
theorem classification_mapping (email body : String) (status : Nat)
    (h429 : status ≠ 429) (h403 : status ≠ 403) (h401 : status ≠ 401)
    (h301 : status ≠ 301) (h302 : status ≠ 302) :
    (strContains body "already associated with an account" = true →
      check_email email (.resp status body) = some (email, "Registered")) ∧
    (strContains body "already associated with an account" = false →
      (strContains body "is available" || strContains body "looks good") = true →
      check_email email (.resp status body) = some (email, "Not registered")) ∧
    (strContains body "already associated with an account" = false →
      strContains body "is available" = false →
      strContains body "looks good" = false →
      check_email email (.resp status body) = some (email, "Unclear")) := by
  rw [check_email_resp_eq]
  refine ⟨fun hc => ?_, fun h1 h2 => ?_, fun h1 h2 h3 => ?_⟩ <;>
    simp_all

theorem classification_mapping_witness :
    check_email "a@x.com" (.resp 200 "That email is available.") =
      some ("a@x.com", "Not registered") :=
  (classification_mapping "a@x.com" "That email is available." 200
      (by decide) (by decide) (by decide) (by decide) (by decide)).2.1
    (by decide) (by decide)

/-- C3 counterexample: a non-2xx response (status 404) still yields a
Classification value, not the failure signal `None`. -/
theorem non2xx_classified_counterexample :
    check_email "a@b.c" (.resp 404 "") = some ("a@b.c", "Unclear") ∧
      ¬(200 ≤ 404 ∧ 404 < 300) := by
  exact ⟨by decide, by decide⟩

/-- C3 (amended): `check_email` returns the failure signal `None` exactly for
responses with status 429, 403, 401, 301 or 302 and for every caught
transport exception; a response with any other status — 2xx or not (e.g. a
404, or a 500 returned after the retry policy is exhausted) — always yields a
Classification value keyed by the input email. -/
theorem check_email_none_iff (email body : String) (status : Nat) :
    (check_email email (.resp status body) = none ↔
      status = 429 ∨ status = 403 ∨ status = 401 ∨ status = 301 ∨ status = 302) ∧
    check_email email .timeout = none ∧
    check_email email .proxyError = none ∧
    check_email email .sslError = none ∧
    check_email email .requestException = none ∧
    check_email email .otherException = none ∧
    (¬(status = 429 ∨ status = 403 ∨ status = 401 ∨ status = 301 ∨ status = 302) →
      ∃ st, check_email email (.resp status body) = some (email, st)) := by
  rw [check_email_resp_eq]
  refine ⟨?_, rfl, rfl, rfl, rfl, rfl, ?_⟩
  · split_ifs <;> simp_all
  · intro h
    push_neg at h
    obtain ⟨h1, h2, h3, h4, h5⟩ := h
    simp [h1, h2, h3, h4, h5]

theorem check_email_none_iff_witness :
    check_email "w@x.y" (.resp 500 "server broke") = none ↔
      (500 = 429 ∨ 500 = 403 ∨ 500 = 401 ∨ 500 = 301 ∨ 500 = 302) :=
  (check_email_none_iff "w@x.y" "server broke" 500).1

/-- C4: every response with status 429, 401, 403, 301 or 302 yields the
failure signal `None`, regardless of the body. -/
theorem failure_statuses_never_classified (email body : String) (status : Nat)
    (h : status = 429 ∨ status = 401 ∨ status = 403 ∨ status = 301 ∨ status = 302) :
    check_email email (.resp status body) = none := by
  rw [check_email_resp_eq]
  rcases h with h | h | h | h | h <;> subst h <;> simp

theorem failure_statuses_never_classified_witness :
    check_email "x@y.z" (.resp 429 "this email is available") = none :=
  failure_statuses_never_classified "x@y.z" "this email is available" 429 (Or.inl rfl)

/-- C10: when a response reaches body classification, the Registered marker
takes precedence (a body containing "already associated with an account" is
classified `Registered` even if it also contains an availability phrase), and
whenever `check_email` returns a pair its first component is the input email
unchanged. -/
theorem registered_precedence_and_echo :
    (∀ (email body : String) (status : Nat),
      status ≠ 429 → status ≠ 403 → status ≠ 401 → status ≠ 301 → status ≠ 302 →
      strContains body "already associated with an account" = true →
      check_email email (.resp status body) = some (email, "Registered")) ∧
    (∀ (email : String) (r : HttpResult) (p : String × String),
      check_email email r = some p → p.1 = email) := by
  constructor
  · intro email body status h1 h2 h3 h4 h5 hc
    rw [check_email_resp_eq]
    simp [h1, h2, h3, h4, h5, hc]
  · intro email r p h
    cases r with
    | resp status body =>
        rw [check_email_resp_eq] at h
        split_ifs at h <;> simp_all <;> (subst h; rfl)
    | timeout => simp [check_email] at h
    | proxyError => simp [check_email] at h
    | sslError => simp [check_email] at h
    | requestException => simp [check_email] at h
    | otherException => simp [check_email] at h

theorem registered_precedence_witness :
    check_email "u@v.w" (.resp 200 "it is available yet already associated with an account") =
        some ("u@v.w", "Registered") ∧
      ("u@v.w", "Registered").1 = "u@v.w" := by
  have h1 := registered_precedence_and_echo.1 "u@v.w"
    "it is available yet already associated with an account" 200
    (by decide) (by decide) (by decide) (by decide) (by decide) (by decide)
  exact ⟨h1, registered_precedence_and_echo.2 "u@v.w" _ _ h1⟩

/-- C9: the token-fetch GET (`retries` in core/get_csrf.py) and the
verification POST (`RETRY_STRATEGY` in core/email_checker.py) share one
transport-level retry policy: 3 total attempts, exponential backoff starting
at 1 second and doubling, applied exactly to statuses 429/500/502/503/504 —
hence never to a 4xx other than 429. -/
theorem retry_policy_shared :
    RETRY_STRATEGY = retries ∧
    retries.total = 3 ∧
    backoffTime retries 0 = 1 ∧
    (∀ n, backoffTime retries (n + 1) = 2 * backoffTime retries n) ∧
    (∀ s, retryAppliesTo retries s = true ↔
      s = 429 ∨ s = 500 ∨ s = 502 ∨ s = 503 ∨ s = 504) ∧
    (∀ s, 400 ≤ s → s < 500 → s ≠ 429 → retryAppliesTo retries s = false) ∧
    retries.raise_on_status = false ∧ retries.raise_on_redirect = false := by
  refine ⟨rfl, rfl, rfl, fun n => ?_, fun s => ?_, fun s h1 h2 h3 => ?_, rfl, rfl⟩
  · simp [backoffTime, pow_succ]
    ring
  · simp [retryAppliesTo, retries, List.contains]
  · have hs : ¬(s = 429 ∨ s = 500 ∨ s = 502 ∨ s = 503 ∨ s = 504) := by omega
    simpa [retryAppliesTo, retries, List.contains] using hs

theorem retry_policy_shared_witness :
    retryAppliesTo retries 430 = false ∧
      backoffTime retries 1 = 2 * backoffTime retries 0 :=
  ⟨retry_policy_shared.2.2.2.2.2.1 430 (by decide) (by decide) (by decide),
   retry_policy_shared.2.2.2.1 0⟩

/-! ## Lemmas about the acquisition phase -/

theorem runAcquire_evs_acq (env : Env) :
    ∀ n ai, ∀ e ∈ (runAcquire env ai n).evs,
      e = .acqFail ∨ ∃ sid, e = .acqOk sid := by
  intro n
  induction n with
  | zero => intro ai e he; simp [runAcquire] at he
  | succ n ih =>
      intro ai e he
      cases hao : attemptOutcome (env.acq ai) with
      | some t =>
          simp [runAcquire, hao] at he
          exact Or.inr ⟨ai, he⟩
      | none =>
          simp [runAcquire, hao] at he
          rcases he with rfl | he
          · exact Or.inl rfl
          · exact ih (ai + 1) e he

theorem runAcquire_all_fail (env : Env) (hfail : ∀ i, attemptOutcome (env.acq i) = none) :
    ∀ n ai, runAcquire env ai n = ⟨List.replicate n .acqFail, ai + n, none⟩ := by
  intro n
  induction n with
  | zero => intro ai; simp [runAcquire]
  | succ n ih =>
      intro ai
      simp [runAcquire, hfail ai, ih (ai + 1), List.replicate_succ]
      omega

theorem runAcquire_tok_some (env : Env) :
    ∀ n ai sid t, (runAcquire env ai n).tok = some (sid, t) →
      ai ≤ sid ∧ (runAcquire env ai n).ai = sid + 1 ∧
      ∃ m, (runAcquire env ai n).evs = List.replicate m .acqFail ++ [.acqOk sid] := by
  intro n
  induction n with
  | zero => intro ai sid t h; simp [runAcquire] at h
  | succ n ih =>
      intro ai sid t h
      cases hao : attemptOutcome (env.acq ai) with
      | some t' =>
          simp [runAcquire, hao] at h ⊢
          obtain ⟨rfl, rfl⟩ := h
          exact ⟨Nat.le_refl _, rfl, 0, by simp⟩
      | none =>
          simp [runAcquire, hao] at h ⊢
          obtain ⟨h1, h2, m, h3⟩ := ih (ai + 1) sid t h
          refine ⟨by omega, h2, m + 1, ?_⟩
          simp [List.replicate_succ, h3]

theorem runAcquire_tok_none_attempts (env : Env) :
    ∀ n ai, (runAcquire env ai n).tok = none →
      ∀ k, k < n → attemptOutcome (env.acq (ai + k)) = none := by
  intro n
  induction n with
  | zero => intro ai _ k hk; omega
  | succ n ih =>
      intro ai h k hk
      cases hao : attemptOutcome (env.acq ai) with
      | some t => simp [runAcquire, hao] at h
      | none =>
          simp [runAcquire, hao] at h
          cases k with
          | zero => simpa using hao
          | succ k =>
              have := ih (ai + 1) h k (by omega)
              simpa [Nat.add_assoc, Nat.add_comm 1 k] using this

/-! ## C7 -/

/-- C7 counterexample: `get_csrf_token` raises the hard ParseFailure
(`RuntimeError`) on a status-303 page missing the token field, although 303
is not a 2xx status — so the parse error is not raised *exactly* on 2xx
pages. -/
theorem parse_error_non2xx_counterexample :
    get_csrf_token (.resp 303 none) = .parseError ∧ ¬(200 ≤ 303 ∧ 303 < 300) :=
  ⟨by decide, by decide⟩

/-- C7 (amended): `get_csrf_token` returns the failure value `None` for every
transient failure — status 429, 403, 401, 301, 302, any 4xx/5xx status
(through `raise_for_status`), and every caught transport exception.  It
raises the hard ParseFailure exactly when the status is outside all of those
classes (which includes every 2xx page, but also e.g. 303) and the hidden
token field is absent or empty; in particular a 2xx page lacking the field
always raises it.  In the worker, such a hard error consumes exactly one
identity-acquisition attempt, and the acquisition phase touches no candidate
(its trace holds only acquisition events). -/
theorem csrf_parse_error_amended :
    (∀ (status : Nat) (tokenField : Option String),
      (status = 429 ∨ status = 403 ∨ status = 401 ∨ status = 301 ∨ status = 302 ∨
        (400 ≤ status ∧ status < 600)) →
      get_csrf_token (.resp status tokenField) = .noToken) ∧
    (get_csrf_token .timeout = .noToken ∧ get_csrf_token .proxyError = .noToken ∧
     get_csrf_token .sslError = .noToken ∧ get_csrf_token .requestException = .noToken ∧
     get_csrf_token .otherException = .noToken) ∧
    (∀ (status : Nat) (tokenField : Option String),
      ¬(status = 429 ∨ status = 403 ∨ status = 401 ∨ status = 301 ∨ status = 302 ∨
        (400 ≤ status ∧ status < 600)) →
      (get_csrf_token (.resp status tokenField) = .parseError ↔
        tokenField = none ∨ tokenField = some "")) ∧
    (∀ (status : Nat), 200 ≤ status → status < 300 →
      get_csrf_token (.resp status none) = .parseError) ∧
    (∀ (env : Env) (ai n : Nat) (p : PageResult),
      env.acq ai = .page p → get_csrf_token p = .parseError →
      (runAcquire env ai (n + 1)).evs = .acqFail :: (runAcquire env (ai + 1) n).evs) ∧
    (∀ (env : Env) (n ai : Nat), ∀ e ∈ (runAcquire env ai n).evs,
      e = .acqFail ∨ ∃ sid, e = .acqOk sid) := by
  refine ⟨?_, ⟨rfl, rfl, rfl, rfl, rfl⟩, ?_, ?_, ?_, runAcquire_evs_acq⟩
  · intro status tokenField h
    rw [get_csrf_token_resp_eq, if_pos h]
  · intro status tokenField h
    rw [get_csrf_token_resp_eq, if_neg h]
    cases tokenField with
    | none => simp
    | some t =>
        by_cases ht : t = "" <;> simp [ht]
  · intro status h1 h2
    have h : ¬(status = 429 ∨ status = 403 ∨ status = 401 ∨ status = 301 ∨ status = 302 ∨
        (400 ≤ status ∧ status < 600)) := by omega
    rw [get_csrf_token_resp_eq, if_neg h]
  · intro env ai n p hacq hparse
    have h1 : attemptOutcome (env.acq ai) = none := by
      rw [hacq]
      simp [attemptOutcome, hparse]
    simp [runAcquire, h1]

theorem csrf_parse_error_witness :
    get_csrf_token (.resp 200 (none : Option String)) = .parseError :=
  csrf_parse_error_amended.2.2.2.1 200 (by decide) (by decide)

/-! ## Lemmas about the session loop -/

theorem runSession_write_mem (env : Env) (sid : Nat) :
    ∀ b gi ci, ∀ s' em st, Ev.write s' em st ∈ (runSession env sid b gi ci).evs →
      s' = sid := by
  intro b
  induction b with
  | zero => intro gi ci s' em st h; simp [runSession] at h
  | succ b ih =>
      intro gi ci s' em st h
      cases hg : env.gets gi with
      | none => simp [runSession, hg] at h
      | some e =>
          cases hc : checkBeh e (env.checks ci) with
          | some s =>
              simp only [runSession, hg, hc] at h
              simp only [List.mem_cons] at h
              rcases h with h | h | h | h
              · cases h
              · exact (Ev.write.injEq _ _ _ _ _ _ ▸ h).1
              · cases h
              · exact ih (gi + 1) (ci + 1) s' em st h
          | none =>
              simp [runSession, hg, hc] at h

theorem runSession_deq_mem (env : Env) (sid : Nat) :
    ∀ b gi ci, ∀ s' em, Ev.deq s' em ∈ (runSession env sid b gi ci).evs →
      s' = sid := by
  intro b
  induction b with
  | zero => intro gi ci s' em h; simp [runSession] at h
  | succ b ih =>
      intro gi ci s' em h
      cases hg : env.gets gi with
      | none => simp [runSession, hg] at h
      | some e =>
          cases hc : checkBeh e (env.checks ci) with
          | some s =>
              simp only [runSession, hg, hc] at h
              simp only [List.mem_cons] at h
              rcases h with h | h | h | h
              · exact (Ev.deq.injEq _ _ _ _ ▸ h).1
              · cases h
              · cases h
              · exact ih (gi + 1) (ci + 1) s' em h
          | none =>
              simp [runSession, hg, hc] at h
              exact h.1

theorem runSession_countW_le (env : Env) (sid : Nat) :
    ∀ b gi ci, List.countP (isWriteOf sid) (runSession env sid b gi ci).evs ≤ b := by
  intro b
  induction b with
  | zero => intro gi ci; simp [runSession]
  | succ b ih =>
      intro gi ci
      cases hg : env.gets gi with
      | none => simp [runSession, hg]
      | some e =>
          cases hc : checkBeh e (env.checks ci) with
          | some s =>
              simp only [runSession, hg, hc, List.countP_cons]
              have := ih (gi + 1) (ci + 1)
              simp only [isWriteOf, isDeqOf]
              simp [beq_self_eq_true]
              omega
          | none =>
              simp [runSession, hg, hc, List.countP_cons, isWriteOf]

theorem runSession_countD_le (env : Env) (sid : Nat) :
    ∀ b gi ci, List.countP (isDeqOf sid) (runSession env sid b gi ci).evs ≤ b := by
  intro b
  induction b with
  | zero => intro gi ci; simp [runSession]
  | succ b ih =>
      intro gi ci
      cases hg : env.gets gi with
      | none => simp [runSession, hg]
      | some e =>
          cases hc : checkBeh e (env.checks ci) with
          | some s =>
              simp only [runSession, hg, hc, List.countP_cons]
              have := ih (gi + 1) (ci + 1)
              simp [isDeqOf, isWriteOf, isDone]
              omega
          | none =>
              simp [runSession, hg, hc, List.countP_cons, isDeqOf, isDone]

theorem runSession_empty_gets (env : Env) (sid : Nat) :
    ∀ b gi ci, (runSession env sid b gi ci).empty = true →
      ∃ j, env.gets j = none := by
  intro b
  induction b with
  | zero => intro gi ci h; simp [runSession] at h
  | succ b ih =>
      intro gi ci h
      cases hg : env.gets gi with
      | none => exact ⟨gi, hg⟩
      | some e =>
          cases hc : checkBeh e (env.checks ci) with
          | some s =>
              simp only [runSession, hg, hc] at h
              exact ih (gi + 1) (ci + 1) h
          | none => simp [runSession, hg, hc] at h

/-! ## Count helpers -/

theorem countP_writeOf_zero (sid : Nat) (l : List Ev)
    (h : ∀ em st, Ev.write sid em st ∈ l → False) :
    List.countP (isWriteOf sid) l = 0 := by
  rw [List.countP_eq_zero]
  intro e he hb
  cases e <;> simp [isWriteOf] at hb
  next s' em st =>
    subst hb
    exact h em st he

theorem countP_deqOf_zero (sid : Nat) (l : List Ev)
    (h : ∀ em, Ev.deq sid em ∈ l → False) :
    List.countP (isDeqOf sid) l = 0 := by
  rw [List.countP_eq_zero]
  intro e he hb
  cases e <;> simp [isDeqOf] at hb
  next s' em =>
    subst hb
    exact h em he

/-! ## Worker-level lemmas -/

theorem acq_countW_zero (env : Env) (n ai sid : Nat) :
    List.countP (isWriteOf sid) (runAcquire env ai n).evs = 0 :=
  countP_writeOf_zero _ _ (fun em st hmem => by
    rcases runAcquire_evs_acq env n ai _ hmem with h' | ⟨s2, h'⟩ <;> simp at h')

theorem acq_countD_zero (env : Env) (n ai sid : Nat) :
    List.countP (isDeqOf sid) (runAcquire env ai n).evs = 0 :=
  countP_deqOf_zero _ _ (fun em hmem => by
    rcases runAcquire_evs_acq env n ai _ hmem with h' | ⟨s2, h'⟩ <;> simp at h')

theorem runWorker_write_sid_ge (env : Env) (eps : Nat) :
    ∀ f ai gi ci sid em st,
      Ev.write sid em st ∈ (runWorker env eps f ai gi ci).evs → ai ≤ sid := by
  intro f
  induction f with
  | zero => intro ai gi ci sid em st h; simp [runWorker] at h
  | succ f ih =>
      intro ai gi ci sid em st h
      cases htok : (runAcquire env ai max_attempts).tok with
      | none =>
          simp [runWorker, htok] at h
          rcases runAcquire_evs_acq env _ _ _ h with h' | ⟨s2, h'⟩ <;> simp at h'
      | some st0 =>
          obtain ⟨sid0, t0⟩ := st0
          obtain ⟨hle, hai, m, hevs⟩ :=
            runAcquire_tok_some env max_attempts ai sid0 t0 htok
          cases hemp : (runSession env sid0 eps gi ci).empty with
          | true =>
              simp [runWorker, htok, hemp] at h
              rcases h with h | h
              · rcases runAcquire_evs_acq env _ _ _ h with h' | ⟨s2, h'⟩ <;> simp at h'
              · have := runSession_write_mem env sid0 eps gi ci sid em st h
                omega
          | false =>
              simp [runWorker, htok, hemp] at h
              rcases h with h | h | h
              · rcases runAcquire_evs_acq env _ _ _ h with h' | ⟨s2, h'⟩ <;> simp at h'
              · have := runSession_write_mem env sid0 eps gi ci sid em st h
                omega
              · have := ih _ _ _ sid em st h
                omega

theorem runWorker_deq_sid_ge (env : Env) (eps : Nat) :
    ∀ f ai gi ci sid em,
      Ev.deq sid em ∈ (runWorker env eps f ai gi ci).evs → ai ≤ sid := by
  intro f
  induction f with
  | zero => intro ai gi ci sid em h; simp [runWorker] at h
  | succ f ih =>
      intro ai gi ci sid em h
      cases htok : (runAcquire env ai max_attempts).tok with
      | none =>
          simp [runWorker, htok] at h
          rcases runAcquire_evs_acq env _ _ _ h with h' | ⟨s2, h'⟩ <;> simp at h'
      | some st0 =>
          obtain ⟨sid0, t0⟩ := st0
          obtain ⟨hle, hai, m, hevs⟩ :=
            runAcquire_tok_some env max_attempts ai sid0 t0 htok
          cases hemp : (runSession env sid0 eps gi ci).empty with
          | true =>
              simp [runWorker, htok, hemp] at h
              rcases h with h | h
              · rcases runAcquire_evs_acq env _ _ _ h with h' | ⟨s2, h'⟩ <;> simp at h'
              · have := runSession_deq_mem env sid0 eps gi ci sid em h
                omega
          | false =>
              simp [runWorker, htok, hemp] at h
              rcases h with h | h | h
              · rcases runAcquire_evs_acq env _ _ _ h with h' | ⟨s2, h'⟩ <;> simp at h'
              · have := runSession_deq_mem env sid0 eps gi ci sid em h
                omega
              · have := ih _ _ _ sid em h
                omega

theorem runWorker_countW_le (env : Env) (eps : Nat) :
    ∀ f ai gi ci sid,
      List.countP (isWriteOf sid) (runWorker env eps f ai gi ci).evs ≤ eps := by
  intro f
  induction f with
  | zero => intro ai gi ci sid; simp [runWorker]
  | succ f ih =>
      intro ai gi ci sid
      cases htok : (runAcquire env ai max_attempts).tok with
      | none =>
          simp [runWorker, htok, List.countP_append, acq_countW_zero, isWriteOf]
      | some st0 =>
          obtain ⟨sid0, t0⟩ := st0
          obtain ⟨hle, hai, m, hevs⟩ :=
            runAcquire_tok_some env max_attempts ai sid0 t0 htok
          cases hemp : (runSession env sid0 eps gi ci).empty with
          | true =>
              simp [runWorker, htok, hemp, List.countP_append, acq_countW_zero, isWriteOf]
              by_cases hs : sid = sid0
              · subst hs; exact runSession_countW_le env sid eps gi ci
              · rw [countP_writeOf_zero sid _ (fun em st hmem =>
                  hs (runSession_write_mem env sid0 eps gi ci sid em st hmem))]
                omega
          | false =>
              simp [runWorker, htok, hemp, List.countP_append, acq_countW_zero]
              by_cases hs : sid = sid0
              · subst hs
                have hw0 : List.countP (isWriteOf sid)
                    (runWorker env eps f (runAcquire env ai max_attempts).ai
                      (runSession env sid eps gi ci).gi
                      (runSession env sid eps gi ci).ci).evs = 0 :=
                  countP_writeOf_zero _ _ (fun em st hmem => by
                    have := runWorker_write_sid_ge env eps f _ _ _ sid em st hmem
                    omega)
                have hs1 := runSession_countW_le env sid eps gi ci
                omega
              · have hs0 : List.countP (isWriteOf sid)
                    (runSession env sid0 eps gi ci).evs = 0 :=
                  countP_writeOf_zero _ _ (fun em st hmem =>
                    hs (runSession_write_mem env sid0 eps gi ci sid em st hmem))
                have hw1 := ih (runAcquire env ai max_attempts).ai
                  (runSession env sid0 eps gi ci).gi
                  (runSession env sid0 eps gi ci).ci sid
                omega

theorem runWorker_countD_le (env : Env) (eps : Nat) :
    ∀ f ai gi ci sid,
      List.countP (isDeqOf sid) (runWorker env eps f ai gi ci).evs ≤ eps := by
  intro f
  induction f with
  | zero => intro ai gi ci sid; simp [runWorker]
  | succ f ih =>
      intro ai gi ci sid
      cases htok : (runAcquire env ai max_attempts).tok with
      | none =>
          simp [runWorker, htok, List.countP_append, acq_countD_zero, isDeqOf]
      | some st0 =>
          obtain ⟨sid0, t0⟩ := st0
          obtain ⟨hle, hai, m, hevs⟩ :=
            runAcquire_tok_some env max_attempts ai sid0 t0 htok
          cases hemp : (runSession env sid0 eps gi ci).empty with
          | true =>
              simp [runWorker, htok, hemp, List.countP_append, acq_countD_zero, isDeqOf]
              by_cases hs : sid = sid0
              · subst hs; exact runSession_countD_le env sid eps gi ci
              · rw [countP_deqOf_zero sid _ (fun em hmem =>
                  hs (runSession_deq_mem env sid0 eps gi ci sid em hmem))]
                omega
          | false =>
              simp [runWorker, htok, hemp, List.countP_append, acq_countD_zero]
              by_cases hs : sid = sid0
              · subst hs
                have hw0 : List.countP (isDeqOf sid)
                    (runWorker env eps f (runAcquire env ai max_attempts).ai
                      (runSession env sid eps gi ci).gi
                      (runSession env sid eps gi ci).ci).evs = 0 :=
                  countP_deqOf_zero _ _ (fun em hmem => by
                    have := runWorker_deq_sid_ge env eps f _ _ _ sid em hmem
                    omega)
                have hs1 := runSession_countD_le env sid eps gi ci
                omega
              · have hs0 : List.countP (isDeqOf sid)
                    (runSession env sid0 eps gi ci).evs = 0 :=
                  countP_deqOf_zero _ _ (fun em hmem =>
                    hs (runSession_deq_mem env sid0 eps gi ci sid em hmem))
                have hw1 := ih (runAcquire env ai max_attempts).ai
                  (runSession env sid0 eps gi ci).gi
                  (runSession env sid0 eps gi ci).ci sid
                omega

/-! ## C1 -/

/-- C1: under an arbitrary interleaving `tt` of the traces of `N` workers
(each running `runWorker` against its own oracle environment), every
identity `sid` acquired by a worker hosts at most `emails_per_session`
successful checks (`write` events) — and indeed at most
`emails_per_session` dequeues at all, so once the budget is spent the
worker performs no further check under that identity: it rotates. -/
theorem session_budget_interleaved
    (N : Nat) (envs : Nat → Env) (emails_per_session fuel : Nat)
    (tt : List (Nat × Ev))
    (hproj : ∀ w, w < N →
      projW w tt = (runWorker (envs w) emails_per_session fuel 0 0 0).evs) :
    ∀ w, w < N → ∀ sid,
      List.countP (isWriteOf sid) (projW w tt) ≤ emails_per_session ∧
      List.countP (isDeqOf sid) (projW w tt) ≤ emails_per_session := by
  intro w hw sid
  rw [hproj w hw]
  exact ⟨runWorker_countW_le _ _ _ _ _ _ _, runWorker_countD_le _ _ _ _ _ _ _⟩

theorem CycleWF_append {l₁ l₂ : List Ev} (h₁ : CycleWF l₁) (h₂ : CycleWF l₂) :
    CycleWF (l₁ ++ l₂) := by
  induction h₁ with
  | nil => exact h₂
  | acqFail _ ih => exact .acqFail ih
  | acqOk _ ih => exact .acqOk ih
  | exitE _ ih => exact .exitE ih
  | exitX _ ih => exact .exitX ih
  | success _ ih => exact .success ih
  | failure _ ih => exact .failure ih

theorem CycleWF_of_acq {l : List Ev}
    (h : ∀ e ∈ l, e = Ev.acqFail ∨ ∃ sid, e = Ev.acqOk sid) : CycleWF l := by
  induction l with
  | nil => exact .nil
  | cons e r ih =>
      have he := h e (List.mem_cons_self e r)
      have hr : CycleWF r := ih (fun x hx => h x (List.mem_cons_of_mem e hx))
      rcases he with rfl | ⟨sid, rfl⟩
      · exact .acqFail hr
      · exact .acqOk hr

theorem runSession_cycleWF (env : Env) (sid : Nat) :
    ∀ b gi ci, CycleWF (runSession env sid b gi ci).evs := by
  intro b
  induction b with
  | zero => intro gi ci; simp only [runSession]; exact .nil
  | succ b ih =>
      intro gi ci
      cases hg : env.gets gi with
      | none => simp only [runSession, hg]; exact .nil
      | some e =>
          cases hc : checkBeh e (env.checks ci) with
          | some s =>
              simp only [runSession, hg, hc]
              exact .success (ih (gi + 1) (ci + 1))
          | none =>
              simp only [runSession, hg, hc]
              exact .failure .nil

theorem CycleWF.done_eq_deq {l : List Ev} (h : CycleWF l) :
    List.countP isDone l = List.countP isDeq l := by
  induction h with
  | nil => rfl
  | acqFail _ ih => simpa [List.countP_cons, isDone, isDeq] using ih
  | acqOk _ ih => simpa [List.countP_cons, isDone, isDeq] using ih
  | exitE _ ih => simpa [List.countP_cons, isDone, isDeq] using ih
  | exitX _ ih => simpa [List.countP_cons, isDone, isDeq] using ih
  | success _ ih => simp [List.countP_cons, isDone, isDeq]; omega
  | failure _ ih => simp [List.countP_cons, isDone, isDeq]; omega

theorem runWorker_cycleWF (env : Env) (eps : Nat) :
    ∀ f ai gi ci, CycleWF (runWorker env eps f ai gi ci).evs := by
  intro f
  induction f with
  | zero => intro ai gi ci; simp only [runWorker]; exact .nil
  | succ f ih =>
      intro ai gi ci
      have hacq : CycleWF (runAcquire env ai max_attempts).evs :=
        CycleWF_of_acq (runAcquire_evs_acq env max_attempts ai)
      cases htok : (runAcquire env ai max_attempts).tok with
      | none =>
          simp only [runWorker, htok]
          exact CycleWF_append hacq (.exitX .nil)
      | some st0 =>
          obtain ⟨sid0, t0⟩ := st0
          cases hemp : (runSession env sid0 eps gi ci).empty with
          | true =>
              simp only [runWorker, htok, hemp, if_true]
              exact CycleWF_append
                (CycleWF_append hacq (runSession_cycleWF env sid0 eps gi ci)) (.exitE .nil)
          | false =>
              simp only [runWorker, htok, hemp, if_false]
              exact CycleWF_append
                (CycleWF_append hacq (runSession_cycleWF env sid0 eps gi ci)) (ih _ _ _)

/-- C5: every worker trace decomposes into per-dequeue cycles — after each
dequeue, `task_done` is called exactly once, and a failed check re-enqueues
the same candidate exactly once, before `task_done`, leaving the queue's
outstanding count net unchanged — and in every complete trace the number of
`task_done` calls equals the number of dequeues. -/
theorem dequeue_cycle_discipline (env : Env) (eps f ai gi ci : Nat) :
    CycleWF (runWorker env eps f ai gi ci).evs ∧
    List.countP isDone (runWorker env eps f ai gi ci).evs =
      List.countP isDeq (runWorker env eps f ai gi ci).evs :=
  ⟨runWorker_cycleWF env eps f ai gi ci,
   (runWorker_cycleWF env eps f ai gi ci).done_eq_deq⟩

theorem noDeqBeforeAcqOk_of_no_deq (l : List Ev)
    (h : ∀ sid em, Ev.deq sid em ∉ l) : noDeqBeforeAcqOk l = true := by
  induction l with
  | nil => rfl
  | cons e r ih =>
      have hr : ∀ sid em, Ev.deq sid em ∉ r :=
        fun sid em hm => h sid em (List.mem_cons_of_mem _ hm)
      cases e with
      | acqOk sid => rfl
      | deq sid em => exact absurd (List.mem_cons_self _ _) (h sid em)
      | acqFail => simpa [noDeqBeforeAcqOk] using ih hr
      | write sid em st => simpa [noDeqBeforeAcqOk] using ih hr
      | requeue sid em => simpa [noDeqBeforeAcqOk] using ih hr
      | done => simpa [noDeqBeforeAcqOk] using ih hr
      | exitEmpty => simpa [noDeqBeforeAcqOk] using ih hr
      | exitExhausted => simpa [noDeqBeforeAcqOk] using ih hr

theorem noDeqBeforeAcqOk_replicate (m sid : Nat) (k : List Ev) :
    noDeqBeforeAcqOk (List.replicate m .acqFail ++ (.acqOk sid :: k)) = true := by
  induction m with
  | zero => rfl
  | succ m ih => simpa [List.replicate_succ, noDeqBeforeAcqOk] using ih

theorem requeueRotates_acq_prepend (l k : List Ev)
    (h : ∀ e ∈ l, e = Ev.acqFail ∨ ∃ sid, e = Ev.acqOk sid) :
    requeueRotates (l ++ k) = requeueRotates k := by
  induction l with
  | nil => rfl
  | cons e r ih =>
      have hr := fun x hx => h x (List.mem_cons_of_mem e hx)
      rcases h e (List.mem_cons_self e r) with rfl | ⟨sid, rfl⟩ <;>
        simpa [requeueRotates] using ih hr

theorem runSession_requeueRotates (env : Env) (sid : Nat) :
    ∀ b gi ci (k : List Ev), noDeqBeforeAcqOk k = true → requeueRotates k = true →
      requeueRotates ((runSession env sid b gi ci).evs ++ k) = true := by
  intro b
  induction b with
  | zero => intro gi ci k h1 h2; simpa [runSession] using h2
  | succ b ih =>
      intro gi ci k h1 h2
      cases hg : env.gets gi with
      | none => simpa [runSession, hg] using h2
      | some e =>
          cases hc : checkBeh e (env.checks ci) with
          | some s =>
              simp only [runSession, hg, hc, List.cons_append]
              simp only [requeueRotates]
              exact ih (gi + 1) (ci + 1) k h1 h2
          | none =>
              simp only [runSession, hg, hc, List.cons_append, List.nil_append]
              simp [requeueRotates, noDeqBeforeAcqOk, h1, h2]

theorem runSession_no_exit (env : Env) (sid : Nat) :
    ∀ b gi ci, ∀ e ∈ (runSession env sid b gi ci).evs, isExit e = false := by
  intro b
  induction b with
  | zero => intro gi ci e h; simp [runSession] at h
  | succ b ih =>
      intro gi ci e h
      cases hg : env.gets gi with
      | none => simp [runSession, hg] at h
      | some em =>
          cases hc : checkBeh em (env.checks ci) with
          | some s =>
              simp only [runSession, hg, hc, List.mem_cons] at h
              rcases h with rfl | rfl | rfl | h
              · rfl
              · rfl
              · rfl
              · exact ih (gi + 1) (ci + 1) e h
          | none =>
              simp only [runSession, hg, hc, List.mem_cons] at h
              rcases h with rfl | rfl | rfl | h
              · rfl
              · rfl
              · rfl
              · simp at h

theorem exitsFinal_cons (e : Ev) (r : List Ev) (hr : r ≠ []) :
    exitsFinal (e :: r) = (!isExit e && exitsFinal r) := by
  cases r with
  | nil => exact absurd rfl hr
  | cons x xs => rfl

theorem exitsFinal_append (l k : List Ev) (h : ∀ e ∈ l, isExit e = false)
    (hk : exitsFinal k = true) : exitsFinal (l ++ k) = true := by
  induction l with
  | nil => simpa using hk
  | cons e t ih =>
      have he : isExit e = false := h e (List.mem_cons_self _ _)
      rw [List.cons_append]
      by_cases ht : t ++ k = []
      · rw [ht]; rfl
      · rw [exitsFinal_cons e _ ht, he,
          ih (fun x hx => h x (List.mem_cons_of_mem _ hx))]
        rfl

theorem runWorker_succ_none (env : Env) (eps f ai gi ci : Nat)
    (htok : (runAcquire env ai max_attempts).tok = none) :
    runWorker env eps (f + 1) ai gi ci =
      ⟨(runAcquire env ai max_attempts).evs ++ [.exitExhausted], [], .exhausted⟩ := by
  simp [runWorker, htok]

theorem runWorker_succ_empty (env : Env) (eps f ai gi ci sid0 : Nat) (t0 : String)
    (htok : (runAcquire env ai max_attempts).tok = some (sid0, t0))
    (hemp : (runSession env sid0 eps gi ci).empty = true) :
    runWorker env eps (f + 1) ai gi ci =
      ⟨(runAcquire env ai max_attempts).evs ++
          ((runSession env sid0 eps gi ci).evs ++ [.exitEmpty]),
        (runSession env sid0 eps gi ci).writes, .queueEmpty⟩ := by
  simp [runWorker, htok, hemp]

theorem runWorker_succ_rot (env : Env) (eps f ai gi ci sid0 : Nat) (t0 : String)
    (htok : (runAcquire env ai max_attempts).tok = some (sid0, t0))
    (hemp : (runSession env sid0 eps gi ci).empty = false) :
    runWorker env eps (f + 1) ai gi ci =
      ⟨(runAcquire env ai max_attempts).evs ++
          ((runSession env sid0 eps gi ci).evs ++
            (runWorker env eps f (runAcquire env ai max_attempts).ai
              (runSession env sid0 eps gi ci).gi
              (runSession env sid0 eps gi ci).ci).evs),
        (runSession env sid0 eps gi ci).writes ++
          (runWorker env eps f (runAcquire env ai max_attempts).ai
            (runSession env sid0 eps gi ci).gi
            (runSession env sid0 eps gi ci).ci).writes,
        (runWorker env eps f (runAcquire env ai max_attempts).ai
          (runSession env sid0 eps gi ci).gi
          (runSession env sid0 eps gi ci).ci).reason⟩ := by
  simp [runWorker, htok, hemp]

theorem runWorker_noDeqStart (env : Env) (eps : Nat) :
    ∀ f ai gi ci, noDeqBeforeAcqOk (runWorker env eps f ai gi ci).evs = true := by
  intro f
  cases f with
  | zero => intro ai gi ci; rfl
  | succ f =>
      intro ai gi ci
      cases htok : (runAcquire env ai max_attempts).tok with
      | none =>
          rw [runWorker_succ_none env eps f ai gi ci htok]
          refine noDeqBeforeAcqOk_of_no_deq _ (fun sid em hm => ?_)
          rw [List.mem_append] at hm
          rcases hm with hm | hm
          · rcases runAcquire_evs_acq env _ _ _ hm with h' | ⟨s2, h'⟩ <;> simp at h'
          · simp at hm
      | some st0 =>
          obtain ⟨sid0, t0⟩ := st0
          obtain ⟨hle, hai, m, hevs⟩ :=
            runAcquire_tok_some env max_attempts ai sid0 t0 htok
          cases hemp : (runSession env sid0 eps gi ci).empty with
          | true =>
              rw [runWorker_succ_empty env eps f ai gi ci sid0 t0 htok hemp]
              rw [hevs, List.append_assoc, List.singleton_append]
              exact noDeqBeforeAcqOk_replicate m sid0 _
          | false =>
              rw [runWorker_succ_rot env eps f ai gi ci sid0 t0 htok hemp]
              rw [hevs, List.append_assoc, List.singleton_append]
              exact noDeqBeforeAcqOk_replicate m sid0 _

theorem runWorker_requeueRotates (env : Env) (eps : Nat) :
    ∀ f ai gi ci, requeueRotates (runWorker env eps f ai gi ci).evs = true := by
  intro f
  induction f with
  | zero => intro ai gi ci; rfl
  | succ f ih =>
      intro ai gi ci
      cases htok : (runAcquire env ai max_attempts).tok with
      | none =>
          rw [runWorker_succ_none env eps f ai gi ci htok]
          rw [requeueRotates_acq_prepend _ _ (runAcquire_evs_acq env _ _)]
          rfl
      | some st0 =>
          obtain ⟨sid0, t0⟩ := st0
          cases hemp : (runSession env sid0 eps gi ci).empty with
          | true =>
              rw [runWorker_succ_empty env eps f ai gi ci sid0 t0 htok hemp]
              rw [requeueRotates_acq_prepend _ _ (runAcquire_evs_acq env _ _)]
              exact runSession_requeueRotates env sid0 eps gi ci [.exitEmpty] rfl rfl
          | false =>
              rw [runWorker_succ_rot env eps f ai gi ci sid0 t0 htok hemp]
              rw [requeueRotates_acq_prepend _ _ (runAcquire_evs_acq env _ _)]
              exact runSession_requeueRotates env sid0 eps gi ci _
                (runWorker_noDeqStart env eps f _ _ _) (ih _ _ _)

theorem runWorker_exitsFinal (env : Env) (eps : Nat) :
    ∀ f ai gi ci, exitsFinal (runWorker env eps f ai gi ci).evs = true := by
  intro f
  induction f with
  | zero => intro ai gi ci; rfl
  | succ f ih =>
      intro ai gi ci
      have hacq : ∀ e ∈ (runAcquire env ai max_attempts).evs, isExit e = false := by
        intro e he
        rcases runAcquire_evs_acq env _ _ _ he with rfl | ⟨s2, rfl⟩ <;> rfl
      cases htok : (runAcquire env ai max_attempts).tok with
      | none =>
          rw [runWorker_succ_none env eps f ai gi ci htok]
          exact exitsFinal_append _ _ hacq rfl
      | some st0 =>
          obtain ⟨sid0, t0⟩ := st0
          cases hemp : (runSession env sid0 eps gi ci).empty with
          | true =>
              rw [runWorker_succ_empty env eps f ai gi ci sid0 t0 htok hemp]
              refine exitsFinal_append _ _ hacq ?_
              exact exitsFinal_append _ _ (runSession_no_exit env sid0 eps gi ci) rfl
          | false =>
              rw [runWorker_succ_rot env eps f ai gi ci sid0 t0 htok hemp]
              refine exitsFinal_append _ _ hacq ?_
              exact exitsFinal_append _ _ (runSession_no_exit env sid0 eps gi ci)
                (ih _ _ _)

theorem runWorker_exhausted_attempts (env : Env) (eps : Nat) :
    ∀ f ai gi ci, (runWorker env eps f ai gi ci).reason = .exhausted →
      ∃ a0, ∀ k, k < max_attempts → attemptOutcome (env.acq (a0 + k)) = none := by
  intro f
  induction f with
  | zero => intro ai gi ci h; simp [runWorker] at h
  | succ f ih =>
      intro ai gi ci h
      cases htok : (runAcquire env ai max_attempts).tok with
      | none => exact ⟨ai, runAcquire_tok_none_attempts env max_attempts ai htok⟩
      | some st0 =>
          obtain ⟨sid0, t0⟩ := st0
          cases hemp : (runSession env sid0 eps gi ci).empty with
          | true => simp [runWorker, htok, hemp] at h
          | false =>
              simp only [runWorker, htok, hemp, if_false] at h
              exact ih _ _ _ h

theorem runWorker_queueEmpty_gets (env : Env) (eps : Nat) :
    ∀ f ai gi ci, (runWorker env eps f ai gi ci).reason = .queueEmpty →
      ∃ j, env.gets j = none := by
  intro f
  induction f with
  | zero => intro ai gi ci h; simp [runWorker] at h
  | succ f ih =>
      intro ai gi ci h
      cases htok : (runAcquire env ai max_attempts).tok with
      | none => simp [runWorker, htok] at h
      | some st0 =>
          obtain ⟨sid0, t0⟩ := st0
          cases hemp : (runSession env sid0 eps gi ci).empty with
          | true => exact runSession_empty_gets env sid0 eps gi ci hemp
          | false =>
              simp only [runWorker, htok, hemp, if_false] at h
              exact ih _ _ _ h

/-- C6: no error in a single candidate check ever terminates a worker.  In
every worker trace: exit events occur only as the final event; after every
re-enqueue (check failure or unexpected exception) the worker acquires a
fresh identity before any further dequeue (rotation); and the worker's exit
reason is only ever queue-empty (a dequeue wait that timed out: some
`q.get` returned `Empty`) or exhaustion (a full window of `max_attempts`
consecutive failed identity acquisitions) — besides the interpreter's fuel
artifact. -/
theorem worker_error_containment (env : Env) (eps f ai gi ci : Nat) :
    exitsFinal (runWorker env eps f ai gi ci).evs = true ∧
    requeueRotates (runWorker env eps f ai gi ci).evs = true ∧
    ((runWorker env eps f ai gi ci).reason = .exhausted →
      ∃ a0, ∀ k, k < max_attempts → attemptOutcome (env.acq (a0 + k)) = none) ∧
    ((runWorker env eps f ai gi ci).reason = .queueEmpty →
      ∃ j, env.gets j = none) :=
  ⟨runWorker_exitsFinal env eps f ai gi ci,
   runWorker_requeueRotates env eps f ai gi ci,
   runWorker_exhausted_attempts env eps f ai gi ci,
   runWorker_queueEmpty_gets env eps f ai gi ci⟩

/-! ## C8 -/

/-- C8: if every identity-acquisition attempt fails (the session/proxy
constructor raises, or the token fetch yields no token or a parse error, on
every call), a worker runs exactly `max_attempts` (= 10) attempts, reaches
the exhausted terminal state, and returns with an empty result-store write
list. -/
theorem exhaustion_scenario (env : Env) (eps fuel ai gi ci : Nat)
    (hfail : ∀ i, attemptOutcome (env.acq i) = none) :
    runWorker env eps (fuel + 1) ai gi ci =
      ⟨List.replicate max_attempts .acqFail ++ [.exitExhausted], [], .exhausted⟩ ∧
    max_attempts = 10 := by
  refine ⟨?_, rfl⟩
  rw [runWorker_succ_none env eps fuel ai gi ci]
  · rw [(runAcquire_all_fail env hfail max_attempts ai :
      runAcquire env ai max_attempts = _)]
  · rw [(runAcquire_all_fail env hfail max_attempts ai :
      runAcquire env ai max_attempts = _)]

theorem exhaustion_scenario_witness :
    runWorker envAllFail 3 1 0 0 0 =
      ⟨List.replicate max_attempts .acqFail ++ [.exitExhausted], [], .exhausted⟩ ∧
    max_attempts = 10 :=
  exhaustion_scenario envAllFail 3 0 0 0 0 (fun _ => rfl)

/-! ## Witnesses for the worker claims -/

theorem session_budget_interleaved_witness :
    List.countP (isWriteOf 0) (projW 0 ttW1) ≤ 3 ∧
    List.countP (isDeqOf 0) (projW 0 ttW1) ≤ 3 :=
  session_budget_interleaved 1 (fun _ => envW1) 3 2 ttW1
    (by
      intro w hw
      have hw0 : w = 0 := by omega
      subst hw0
      rfl)
    0 (by omega) 0

theorem worker_error_containment_witness :
    ∃ j, envC6.gets j = none :=
  (worker_error_containment envC6 3 1 0 0 0).2.2.2 rfl

end WebScrape
